import Mathlib

/-!
Verification of the unfunny_bot pipeline against its specification.

A shallow embedding of `src/main.rs`: the prompt-store parser, the fill-in
catalogs, the template interpolation loop, the schema/branch dispatch on the
prompt kind, the quote-extraction of the base image name, the caption layout
of the image renderer, and the model-tier coin flip.  Strings are modelled as
`List Char` where character-level scanning matters and as `String` elsewhere;
random draws are modelled as explicit oracles; Rust panics (`unwrap` on
`None`, out-of-bounds indexing) are modelled as `Option.none` results.
-/

namespace UnfunnyBot

/-! ## Prompt store parsing (`load_prompts`, `impl From for Prompt`) -/

/-- The two prompt kinds of `enum PromptType`. -/
inductive PromptType where
  | Text
  | Image
  deriving DecidableEq

/-- Rust `impl From<&str> for PromptType`: `"text"` and `"image"` are recognised,
anything else degrades to `Text`. -/
def promptTypeOf (s : List Char) : PromptType :=
  if s = "text".toList then .Text
  else if s = "image".toList then .Image
  else .Text

/-- One parsed line of the prompt store (`struct Prompt`). -/
structure Prompt where
  prompt_type : PromptType
  prompt : List Char
  deriving DecidableEq

/-- Rust `str::trim` restricted to the whitespace characters the store uses. -/
def trim (l : List Char) : List Char :=
  ((l.dropWhile Char.isWhitespace).reverse.dropWhile Char.isWhitespace).reverse

/-- Rust `line.starts_with("#")`. -/
def startsWithHash : List Char → Bool
  | '#' :: _ => true
  | _ => false

/-- Rust `line.split(";")`: split on every occurrence of the delimiter. -/
def splitSemi : List Char → List (List Char)
  | [] => [[]]
  | c :: rest =>
    if c = ';' then [] :: splitSemi rest
    else (c :: (splitSemi rest).headD []) :: (splitSemi rest).tail

/-- Rust `impl From<Vec<&str>> for Prompt`: field 0 is the trimmed kind, field 1
the trimmed body. -/
def promptOfParts (parts : List (List Char)) : Prompt :=
  ⟨promptTypeOf (trim (parts.headD [])), trim ((parts.tail).headD [])⟩

/-- Model of `load_prompts`: skip `#` lines, split each line on every `;`, keep the
line only when the split has exactly two parts. -/
def load_prompts : List (List Char) → List Prompt
  | [] => []
  | line :: rest =>
    if startsWithHash line then load_prompts rest
    else
      if (splitSemi line).length = 2 then promptOfParts (splitSemi line) :: load_prompts rest
      else load_prompts rest

/-- Modelled from the spec: split a line on the *first* delimiter occurrence
only (the parsing policy §4.3 describes), to be compared with `splitSemi`. -/
def splitOnce (l : List Char) : List (List Char) :=
  if ';' ∈ l then [l.takeWhile (fun c => c ≠ ';'), (l.dropWhile (fun c => c ≠ ';')).tail]
  else [l]

/-- Modelled from the spec: `loadAll` under the split-on-first-occurrence
policy, to be compared with `load_prompts`. -/
def loadAll_spec : List (List Char) → List Prompt
  | [] => []
  | line :: rest =>
    if startsWithHash line then loadAll_spec rest
    else
      if (splitOnce line).length = 2 then promptOfParts (splitOnce line) :: loadAll_spec rest
      else loadAll_spec rest

/-! ## Fill-in catalogs (`load_fill_in_file`, `choose_random_item`) -/

/-- Model of `load_fill_in_file`: every line of the catalog that does not start with
`#`, in order. -/
def load_fill_in_file (lines : List (List Char)) : List (List Char) :=
  lines.filter (fun l => !startsWithHash l)

/-- Rust `slice::choose(&mut thread_rng())`: a uniform pick, modelled by an
arbitrary draw index reduced modulo the length; `none` exactly on the empty
slice. -/
def chooseIdx (l : List (List Char)) (k : Nat) : Option (List Char) :=
  l.get? (k % l.length)

/-- Model of `choose_random_item`: filter the catalog, pick, then `unwrap` — the
panic on an empty catalog is the `none` result. -/
def choose_random_item (lines : List (List Char)) (k : Nat) : Option (List Char) :=
  chooseIdx (load_fill_in_file lines) k

/-! ## Base image extraction (`get_image_from_prompt`) -/

/-- Positions of a character in a list, from offset `n`
(Rust `str::match_indices`). -/
def indicesFrom (c : Char) : Nat → List Char → List Nat
  | _, [] => []
  | n, x :: rest =>
    if x = c then n :: indicesFrom c (n + 1) rest
    else indicesFrom c (n + 1) rest

/-- Model of `get_image_from_prompt`: the slice strictly between the first two `"`
characters; `matches[0]`/`matches[1]` panic on fewer than two quotes,
modelled `none`. -/
def get_image_from_prompt (prompt : List Char) : Option (List Char) :=
  match indicesFrom '"' 0 prompt with
  | i :: j :: _ => some ((prompt.drop (i + 1)).take (j - (i + 1)))
  | _ => none

/-! ## Template interpolation (`Prompt::interpolate`) -/

/-- A character of the class in the token regex `[a-z_\-]`. -/
def isTokenChar (c : Char) : Bool :=
  ('a' ≤ c && c ≤ 'z') || c = '_' || c = '-'

/-- The scanner behind `Regex::find_iter` for `\x7b[a-z_\-]+\x7d` on the
original template, kept with the interstitial text: `scanT l pending`
processes `l` one character at a time, `pending = some run` meaning an
opened `'\x7b' :: run` whose characters are all in the class.  It returns the
segment before the first match and, for each match, the matched token text
together with the segment that follows it. -/
def scanT : List Char → Option (List Char) → List Char × List (List Char × List Char)
  | [], none => ([], [])
  | [], some run => ('{' :: run, [])
  | c :: rest, none =>
    if c = '{' then scanT rest (some [])
    else
      let r := scanT rest none
      (c :: r.1, r.2)
  | c :: rest, some run =>
    if isTokenChar c then scanT rest (some (run ++ [c]))
    else if c = '}' then
      if run = [] then
        let r := scanT rest none
        ('{' :: '}' :: r.1, r.2)
      else
        let r := scanT rest none
        ([], ('{' :: run ++ ['}'], r.1) :: r.2)
    else if c = '{' then
      let r := scanT rest (some [])
      ('{' :: run ++ r.1, r.2)
    else
      let r := scanT rest none
      ('{' :: run ++ c :: r.1, r.2)

/-- The match/segment decomposition of a template body: the body is the
first component followed by each token and its trailing segment in order. -/
def findSplit (body : List Char) : List Char × List (List Char × List Char) :=
  scanT body none

/-- The matches of `regex.find_iter(&self.prompt)`, in order. -/
def findMatches (body : List Char) : List (List Char) :=
  (findSplit body).2.map (fun p => p.1)

/-- Rust `strip_prefix("\x7b").strip_suffix("\x7d")`: the catalog name inside a
matched token. -/
def stripBraces (t : List Char) : List Char :=
  (t.drop 1).dropLast

/-- Rust `String::replacen(pat, val, 1)`: replace the first occurrence of `pat`
(leftmost position where `pat` is a prefix of the remainder), leaving the
string unchanged when there is none. -/
def replaceFirst : List Char → List Char → List Char → List Char
  | [], _, _ => []
  | c :: rest, pat, val =>
    if pat.isPrefixOf (c :: rest) then val ++ (c :: rest).drop pat.length
    else c :: replaceFirst rest pat val

/-- The loop body of `interpolate`: for each match of the original scan, in
order, draw `draws name i` from the catalog `name` named by the token (the
`i`-th call overall, so successive draws are independent) and `replacen` it
into the accumulating string. -/
def interpAux (draws : List Char → Nat → List Char) :
    Nat → List (List Char) → List Char → List Char
  | _, [], acc => acc
  | i, t :: ts, acc =>
    interpAux draws (i + 1) ts (replaceFirst acc t (draws (stripBraces t) i))

/-- Model of `Prompt::interpolate` on a template body, the random catalog draws given
as an oracle (each draw assumed to succeed). -/
def interpolate (draws : List Char → Nat → List Char) (body : List Char) : List Char :=
  interpAux draws 0 (findMatches body) body

/-- Modelled from the spec: resolve each token *occurrence* in place with
its own successive draw (§4.2's guarantee), to be compared with
`interpolate`. -/
def joinResolved (draws : List Char → Nat → List Char) :
    Nat → List (List Char × List Char) → List Char
  | _, [] => []
  | i, (t, s) :: ms => draws (stripBraces t) i ++ s ++ joinResolved draws (i + 1) ms

/-- Modelled from the spec: the interpolation result §4.2 guarantees, every
occurrence replaced positionally by its own draw. -/
def interpolate_spec (draws : List Char → Nat → List Char) (body : List Char) : List Char :=
  (findSplit body).1 ++ joinResolved draws 0 (findSplit body).2

/-- A template body contains a substring matching the token pattern
`\x7b[a-z_\-]+\x7d`. -/
def hasToken (body : List Char) : Prop :=
  ∃ pre run suf, run ≠ [] ∧ (∀ c ∈ run, isTokenChar c = true) ∧
    body = pre ++ ('{' :: run ++ ['}']) ++ suf

/-! ## Schemas and branch dispatch (`get_functions`, `get_function_call`,
the `match prompt.prompt_type` in `main`) -/

/-- One function contract sent to the provider
(`ChatCompletionFunctionsArgs`): name, `(field, type)` properties and the
`required` list. -/
structure FunctionSchema where
  name : String
  properties : List (String × String)
  required : List String
  deriving DecidableEq

/-- Model of `Prompt::get_functions`. -/
def get_functions : PromptType → List FunctionSchema
  | .Text => [⟨"set_text", [("text", "string")], ["text"]⟩]
  | .Image => [⟨"set_meme", [("top_text", "string"), ("bottom_text", "string")],
               ["top_text", "bottom_text"]⟩]

/-- Model of `Prompt::get_function_call`: the forced function name. -/
def get_function_call : PromptType → String
  | .Text => "set_text"
  | .Image => "set_meme"

/-- The fields a kind's schema marks required. -/
def required_fields (k : PromptType) : List String :=
  ((get_functions k).map (fun f => f.required)).flatten

/-- Rust `response[key].as_str()`: string field of the provider reply, `none`
when absent. -/
def jget (resp : List (String × String)) (key : String) : Option String :=
  (resp.find? (fun p => p.1 == key)).map (fun p => p.2)

/-- The externally visible effects of one run, in order. -/
inductive Action where
  | render (image : List Char) (top bottom : String)
  | uploadMedia (path : String)
  | post (params : List (String × String))
  deriving DecidableEq

/-- Model of `send_mastodon_msg`: the form parameters it posts. -/
def send_mastodon_msg_params (text : String) (image_id : Option String) :
    List (String × String) :=
  [("status", text), ("visibility", "public"), ("language", "en"),
   ("media_ids[]", image_id.getD "")]

/-- The `PromptType::Text` arm of `main`: read `text` (unwrap), censor it,
post it with no media. -/
def text_branch (censor : String → String) (resp : List (String × String)) :
    Option (List Action) :=
  match jget resp "text" with
  | none => none
  | some t => some [Action.post (send_mastodon_msg_params (censor t) none)]

/-- The `PromptType::Image` arm of `main`: read and censor both captions
(unwrap), extract the base image from the interpolated prompt, render to the
fixed output path, upload it, then post an empty status carrying the media
id. Failures (`none`) happen before any action. -/
def image_branch (censor : String → String) (resp : List (String × String))
    (interp : List Char) (image_id : String) : Option (List Action) :=
  match jget resp "top_text" with
  | none => none
  | some top =>
    let top := censor top
    match jget resp "bottom_text" with
    | none => none
    | some bottom =>
      let bottom := censor bottom
      match get_image_from_prompt interp with
      | none => none
      | some image_meme =>
        some [Action.render image_meme top bottom,
              Action.uploadMedia "output/output.jpg",
              Action.post (send_mastodon_msg_params "" (some image_id))]

/-- The `match prompt.prompt_type` dispatch in `main`. -/
def run_branch (k : PromptType) (censor : String → String)
    (resp : List (String × String)) (interp : List Char) (image_id : String) :
    Option (List Action) :=
  match k with
  | .Text => text_branch censor resp
  | .Image => image_branch censor resp interp image_id

/-! ## Image renderer layout (`generate_image`) -/

/-- One `draw_text` call: text, position, and whether the pixel is the white
outline pass (`offset != 0`) or the black main pass. -/
structure DrawCall where
  text : String
  x : Nat
  y : Nat
  white : Bool
  deriving DecidableEq

/-- Rust `for offset in 0..=4 { let offset = 4 - offset; ... }`. -/
def outline_offsets : List Nat :=
  (List.range 5).map (fun o => 4 - o)

/-- The sequence of `draw_text` calls `generate_image` issues, with the
font-metric width measurement abstracted as `widthOf`.  The point size is
the fixed `55.0`, so the top baseline is `size as usize = 55` and the bottom
baseline `image_height - 20`. -/
def generate_image_calls (widthOf : String → Nat) (image_width image_height : Nat)
    (top bottom : String) : List DrawCall :=
  (outline_offsets.map (fun offset =>
    let tw := widthOf top
    let tx := if tw < image_width then (image_width - tw) / 2 else 0
    let bw := widthOf bottom
    let bx := if bw < image_width then (image_width - bw) / 2 else 0
    [⟨top, tx + offset, 55 + offset, offset ≠ 0⟩,
     ⟨bottom, bx + offset, image_height - 20 + offset, offset ≠ 0⟩])).flatten

/-! ## Model-tier selection (`thread_rng().gen_bool(0.95)` in `main`) -/

/-- The literal probability in `gen_bool(0.95)`. -/
def model_threshold : ℚ := 95 / 100

/-- Rust `Rng::gen_bool(p)`: true exactly when the uniform draw `u ∈ [0,1)` falls
below `p`. -/
def gen_bool (p u : ℚ) : Bool :=
  u < p

/-- The model pick in `main`: one `gen_bool(0.95)` draw decides between the
two fixed identifiers. -/
def select_model (u : ℚ) : String :=
  if gen_bool model_threshold u then "gpt-3.5-turbo" else "gpt-4"

/-! ## Scanner lemmas -/

/-- What the scanner has already consumed when `pending` is open. -/
def pendingText : Option (List Char) → List Char
  | none => []
  | some run => '{' :: run

/-- The scan decomposes its input: consumed prefix plus remaining input equal
the leading segment followed by each token and its trailing segment. -/
theorem scanT_reconstruct (l : List Char) :
    ∀ pending, pendingText pending ++ l
      = (scanT l pending).1 ++ ((scanT l pending).2.map (fun p => p.1 ++ p.2)).flatten := by
  induction l with
  | nil =>
    intro pending
    cases pending <;> simp [scanT, pendingText]
  | cons c rest ih =>
    intro pending
    cases pending with
    | none =>
      by_cases hc : c = '{'
      · subst hc
        have h := ih (some [])
        simp [scanT, pendingText] at h ⊢
        exact h
      · have h := ih none
        simp [scanT, pendingText, hc] at h ⊢
        exact h
    | some run =>
      by_cases htc : isTokenChar c
      · have h := ih (some (run ++ [c]))
        simp [scanT, pendingText, htc] at h ⊢
        simpa using h
      · by_cases hc : c = '}'
        · subst hc
          by_cases hrun : run = []
          · subst hrun
            have h := ih none
            simp [scanT, pendingText, htc] at h ⊢
            exact h
          · have h := ih none
            simp [scanT, pendingText, htc, hrun] at h ⊢
            exact h
        · by_cases hob : c = '{'
          · subst hob
            have h := ih (some [])
            simp [scanT, pendingText, htc, hc] at h ⊢
            exact h
          · have h := ih none
            simp [scanT, pendingText, htc, hc, hob] at h ⊢
            exact h

/-- Every token the scanner emits is a nonempty run of class characters
wrapped in braces. -/
theorem scanT_token_shape (l : List Char) :
    ∀ pending, (∀ run, pending = some run → ∀ c ∈ run, isTokenChar c = true) →
      ∀ p ∈ (scanT l pending).2,
        ∃ run, run ≠ [] ∧ (∀ c ∈ run, isTokenChar c = true) ∧ p.1 = '{' :: run ++ ['}'] := by
  induction l with
  | nil =>
    intro pending hp p hmem
    cases pending <;> simp [scanT] at hmem
  | cons c rest ih =>
    intro pending hp p hmem
    cases pending with
    | none =>
      by_cases hc : c = '{'
      · subst hc
        simp only [scanT, if_pos rfl] at hmem
        exact ih (some []) (by simp) p hmem
      · simp only [scanT, if_neg hc] at hmem
        exact ih none (by simp) p hmem
    | some run =>
      have hrun := hp run rfl
      by_cases htc : isTokenChar c
      · simp only [scanT, if_pos htc] at hmem
        refine ih (some (run ++ [c])) ?_ p hmem
        intro run' hr' a ha
        cases hr'
        rcases List.mem_append.mp ha with h | h
        · exact hrun a h
        · simp at h; subst h; exact htc
      · by_cases hc : c = '}'
        · subst hc
          by_cases hempty : run = []
          · subst hempty
            simp only [scanT, if_neg htc, if_pos rfl] at hmem
            exact ih none (by simp) p hmem
          · simp [scanT, htc, hempty] at hmem
            rcases hmem with hmem | hmem
            · exact ⟨run, hempty, hrun, by simp [hmem]⟩
            · exact ih none (by simp) p hmem
        · by_cases hob : c = '{'
          · subst hob
            simp only [scanT, if_neg htc, if_neg hc, if_pos rfl] at hmem
            exact ih (some []) (by simp) p hmem
          · simp only [scanT, if_neg htc, if_neg hc, if_neg hob] at hmem
            exact ih none (by simp) p hmem

/-! ## `replacen` lemma -/

/-- Applying `replacen(pat, val, 1)` on `P ++ pat ++ R` replaces exactly the explicit
occurrence when the text before it contains no `'\x7b'` and `pat` starts with
one. -/
theorem replaceFirst_at_marker (t' R d : List Char) :
    ∀ P : List Char, '{' ∉ P →
      replaceFirst (P ++ ('{' :: t') ++ R) ('{' :: t') d = P ++ d ++ R := by
  intro P
  induction P with
  | nil =>
    intro _
    have hpre : ('{' :: t').isPrefixOf (('{' :: t') ++ R) = true := by
      rw [List.isPrefixOf_iff_prefix]
      exact List.prefix_append _ _
    simp only [List.nil_append, replaceFirst, hpre, if_pos]
    simp [List.drop_left]
  | cons a P ihP =>
    intro h
    have ha : a ≠ '{' := by
      intro hEq; exact h (by simp [hEq])
    have hnp : ('{' :: t').isPrefixOf (a :: (P ++ ('{' :: t') ++ R)) = false := by
      simp [List.isPrefixOf]
      intro hEq
      exact absurd hEq.symm ha
    have hrest := ihP (fun hmem => h (List.mem_cons_of_mem a hmem))
    simp only [List.cons_append, replaceFirst, hnp]
    simp [Ne.symm ha]
    simpa using hrest

/-- Stripping the braces of a wrapped run gives the run back. -/
theorem stripBraces_wrap (run : List Char) : stripBraces ('{' :: run ++ ['}']) = run := by
  simp [stripBraces]

/-- The interpolation loop on a decomposed template: when the text before
each pending token contains no `'\x7b'` — neither the interstitial segments
nor the drawn values do — each `replacen` lands on that token occurrence, so
the loop realises the positional substitution `joinResolved`. -/
theorem interpAux_resolves (draws : List Char → Nat → List Char)
    (hdraws : ∀ s j, '{' ∉ draws s j) :
    ∀ (ms : List (List Char × List Char)) (i : Nat) (P : List Char), '{' ∉ P →
      (∀ p ∈ ms, (∃ run, run ≠ [] ∧ p.1 = '{' :: run ++ ['}']) ∧ '{' ∉ p.2) →
      interpAux draws i (ms.map (fun p => p.1)) (P ++ (ms.map (fun p => p.1 ++ p.2)).flatten)
        = P ++ joinResolved draws i ms := by
  intro ms
  induction ms with
  | nil =>
    intro i P hP _
    simp [interpAux, joinResolved]
  | cons p ms ih =>
    intro i P hP hshape
    obtain ⟨⟨run, hrun, hp1⟩, hp2⟩ := hshape p (List.mem_cons_self p ms)
    have hstep :
        replaceFirst (P ++ (p.1 ++ p.2) ++ (ms.map (fun p => p.1 ++ p.2)).flatten) p.1
          (draws (stripBraces p.1) i)
          = P ++ draws (stripBraces p.1) i ++ (p.2 ++ (ms.map (fun p => p.1 ++ p.2)).flatten) := by
      rw [hp1]
      have := replaceFirst_at_marker (run ++ ['}'])
        (p.2 ++ (ms.map (fun p => p.1 ++ p.2)).flatten)
        (draws (stripBraces ('{' :: run ++ ['}'])) i) P hP
      simpa [List.append_assoc] using this
    have hPd : '{' ∉ P ++ draws (stripBraces p.1) i ++ p.2 := by
      intro hmem
      rcases List.mem_append.mp hmem with hmem | hmem
      · rcases List.mem_append.mp hmem with hmem | hmem
        · exact hP hmem
        · exact hdraws (stripBraces p.1) i hmem
      · exact hp2 hmem
    have hrec := ih (i + 1) (P ++ draws (stripBraces p.1) i ++ p.2) hPd
      (fun q hq => hshape q (List.mem_cons_of_mem p hq))
    simp only [List.map_cons, List.flatten_cons, interpAux]
    rw [show P ++ ((p.1 ++ p.2) ++ (ms.map (fun p => p.1 ++ p.2)).flatten)
          = P ++ (p.1 ++ p.2) ++ (ms.map (fun p => p.1 ++ p.2)).flatten by
        simp [List.append_assoc]]
    rw [hstep]
    rw [show P ++ draws (stripBraces p.1) i ++ (p.2 ++ (ms.map (fun p => p.1 ++ p.2)).flatten)
          = (P ++ draws (stripBraces p.1) i ++ p.2) ++ (ms.map (fun p => p.1 ++ p.2)).flatten by
        simp [List.append_assoc]]
    rw [hrec]
    simp [joinResolved, List.append_assoc]

/-- C1: the claim as stated is false on the code.  The template
`"\x7ba\x7d\x7ba\x7d"` has the same token twice; the first draw is the literal
`"\x7ba\x7d"` itself, so the second `replacen` replaces the re-introduced text
and the second template occurrence is never resolved: the code yields
`"x\x7ba\x7d"` while one-draw-per-occurrence (the spec's positional
substitution) would yield `"\x7ba\x7dx"`. -/
theorem interpolate_counterexample :
    interpolate (fun _ j => if j = 0 then ['{', 'a', '}'] else ['x'])
        ['{', 'a', '}', '{', 'a', '}'] = ['x', '{', 'a', '}'] ∧
    interpolate_spec (fun _ j => if j = 0 then ['{', 'a', '}'] else ['x'])
        ['{', 'a', '}', '{', 'a', '}'] = ['{', 'a', '}', 'x'] ∧
    interpolate (fun _ j => if j = 0 then ['{', 'a', '}'] else ['x'])
        ['{', 'a', '}', '{', 'a', '}']
      ≠ interpolate_spec (fun _ j => if j = 0 then ['{', 'a', '}'] else ['x'])
        ['{', 'a', '}', '{', 'a', '}'] := by
  refine ⟨by decide, by decide, by decide⟩

/-- C1 (amended): `interpolate` scans the original body left to right and
`replacen`s one draw per match into the accumulating string; provided no
drawn value contains a `'\x7b'` and every `'\x7b'` of the body lies in a
matched token (the leading and interstitial segments are brace-free), every
token occurrence is resolved exactly once by its own successive draw — the
result is exactly the positional substitution `interpolate_spec`. -/
theorem interpolate_resolves_each_occurrence
    (draws : List Char → Nat → List Char) (body : List Char)
    (hdraws : ∀ s j, '{' ∉ draws s j)
    (hseg0 : '{' ∉ (findSplit body).1)
    (hsegs : ∀ p ∈ (findSplit body).2, '{' ∉ p.2) :
    interpolate draws body = interpolate_spec draws body := by
  have hre := scanT_reconstruct body none
  simp only [pendingText, List.nil_append] at hre
  have hshape := scanT_token_shape body none (by simp)
  unfold findSplit at hseg0 hsegs
  unfold interpolate interpolate_spec findMatches findSplit
  rcases hsp : scanT body none with ⟨s0, ms⟩
  rw [hsp] at hre hshape hseg0 hsegs
  dsimp only at hre hshape hseg0 hsegs ⊢
  conv_lhs => rw [hre]
  exact interpAux_resolves draws hdraws ms 0 s0 hseg0
    (fun p hp => ⟨(hshape p hp).elim (fun run hr => ⟨run, hr.1, hr.2.2⟩), hsegs p hp⟩)

/-- C1 witness: a two-occurrence template with brace-free draws, resolved
exactly as the positional substitution predicts. -/
theorem interpolate_resolves_each_occurrence_witness :
    interpolate (fun _ _ => ['c', 'a', 't']) "I like {animal} and {animal}.".toList
      = interpolate_spec (fun _ _ => ['c', 'a', 't']) "I like {animal} and {animal}.".toList :=
  interpolate_resolves_each_occurrence _ _ (fun _ _ => by decide) (by decide) (by decide)

/-- C9: a template body with no substring matching the token pattern is
returned unchanged by `interpolate`. -/
theorem interpolate_id_of_no_token (draws : List Char → Nat → List Char)
    (body : List Char) (h : ¬ hasToken body) :
    interpolate draws body = body := by
  have hre := scanT_reconstruct body none
  simp only [pendingText, List.nil_append] at hre
  have hshape := scanT_token_shape body none (by simp)
  unfold interpolate findMatches findSplit
  rcases hsp : scanT body none with ⟨s0, ms⟩
  rw [hsp] at hre hshape
  dsimp only at hre hshape ⊢
  cases ms with
  | nil => rfl
  | cons p rest =>
    exfalso
    apply h
    obtain ⟨run, hrun, hall, hp1⟩ := hshape p (List.mem_cons_self p rest)
    refine ⟨s0, run,
      p.2 ++ ((rest.map (fun q => q.1 ++ q.2)).flatten), hrun, hall, ?_⟩
    rw [hre]
    simp [hp1, List.append_assoc]

/-- C9 witness: a body whose only braces fail the token pattern is left
alone. -/
theorem interpolate_id_of_no_token_witness :
    interpolate (fun _ _ => ['c', 'a', 't']) "nothing to fill in here.".toList
      = "nothing to fill in here.".toList :=
  interpolate_id_of_no_token _ _ (by
    rintro ⟨pre, run, suf, hrun, hall, heq⟩
    have hob : '{' ∈ "nothing to fill in here.".toList := by
      rw [heq]
      simp
    exact absurd hob (by decide))

/-! ## Prompt-store parsing lemmas -/

/-- Number of delimiter occurrences in a line. -/
def countSemi : List Char → Nat
  | [] => 0
  | c :: rest => (if c = ';' then 1 else 0) + countSemi rest

/-- A line without the delimiter is one whole part. -/
theorem splitSemi_of_countSemi_zero : ∀ l : List Char, countSemi l = 0 → splitSemi l = [l] := by
  intro l
  induction l with
  | nil => intro _; rfl
  | cons c rest ih =>
    intro h
    simp only [countSemi] at h
    have hc : c ≠ ';' := by
      intro hEq
      simp [hEq] at h
    have hrest := ih (by omega)
    simp [splitSemi, hc, hrest]

/-- No delimiter when the count is zero. -/
theorem not_mem_of_countSemi_zero : ∀ l : List Char, countSemi l = 0 → ';' ∉ l := by
  intro l
  induction l with
  | nil => intro _; simp
  | cons c rest ih =>
    intro h hmem
    simp only [countSemi] at h
    rcases List.mem_cons.mp hmem with hmem | hmem
    · simp [hmem.symm] at h
    · have hc : c ≠ ';' := by
        intro hEq
        simp [hEq] at h
      exact ih (by simp [hc] at h; omega) hmem

/-- A line the delimiter does not occur in is one whole part. -/
theorem splitSemi_of_not_mem : ∀ l : List Char, ';' ∉ l → splitSemi l = [l] := by
  intro l
  induction l with
  | nil => intro _; rfl
  | cons c rest ih =>
    intro h
    have hc : c ≠ ';' := fun hEq => h (by simp [hEq])
    have hrest := ih (fun hmem => h (List.mem_cons_of_mem c hmem))
    simp [splitSemi, hc, hrest]

/-- With at most one delimiter in the line, splitting on every occurrence
agrees with splitting on the first occurrence only. -/
theorem splitSemi_eq_splitOnce : ∀ l : List Char, countSemi l ≤ 1 → splitSemi l = splitOnce l := by
  intro l
  induction l with
  | nil => intro _; simp [splitSemi, splitOnce]
  | cons c rest ih =>
    intro h
    simp only [countSemi] at h
    by_cases hc : c = ';'
    · subst hc
      have hz : countSemi rest = 0 := by simp at h; omega
      have hrest := splitSemi_of_not_mem rest (not_mem_of_countSemi_zero rest hz)
      simp [splitSemi, splitOnce, hrest, List.dropWhile_cons]
    · have hrec := ih (by simp [hc] at h; omega)
      by_cases hmem : ';' ∈ rest
      · have hmem' : ';' ∈ c :: rest := List.mem_cons_of_mem c hmem
        simp only [splitOnce, if_pos hmem] at hrec
        simp only [splitOnce, if_pos hmem']
        simp [splitSemi, hrec, List.takeWhile_cons, List.dropWhile_cons, hc]
      · have hnm : ';' ∉ c :: rest := by
          intro hx
          rcases List.mem_cons.mp hx with hx | hx
          · exact hc hx.symm
          · exact hmem hx
        have hrest := splitSemi_of_not_mem rest hmem
        simp [splitSemi, splitOnce, hc, hrest, hnm]

/-- C2 counterexample: the code splits on *every* delimiter occurrence, so a
non-comment line with two delimiters yields three parts and is dropped,
while the split-on-first-occurrence policy the claim states would keep it as
`(text, "b;c")`. -/
theorem load_prompts_counterexample :
    load_prompts ["a;b;c".toList] = [] ∧
    loadAll_spec ["a;b;c".toList] = [⟨PromptType.Text, "b;c".toList⟩] := by
  exact ⟨by decide, by decide⟩

/-- C2 (amended): `load_prompts` splits each non-comment line on every
delimiter occurrence and keeps exactly the lines yielding two parts, i.e.
the lines with exactly one `;`; this agrees with the split-on-first policy
whenever no non-comment line has more than one delimiter, and on the spec's
example store it returns exactly the one well-formed template. -/
theorem load_prompts_parsing :
    (∀ lines : List (List Char),
      (∀ l ∈ lines, startsWithHash l = false → countSemi l ≤ 1) →
      load_prompts lines = loadAll_spec lines) ∧
    load_prompts ["text;hello {mood}".toList, "bad_line_no_delimiter".toList]
      = [⟨PromptType.Text, "hello {mood}".toList⟩] := by
  constructor
  · intro lines
    induction lines with
    | nil => intro _; rfl
    | cons line rest ih =>
      intro h
      have hrest := ih (fun l hl => h l (List.mem_cons_of_mem line hl))
      by_cases hhash : startsWithHash line
      · simp [load_prompts, loadAll_spec, hhash, hrest]
      · have hsp := splitSemi_eq_splitOnce line
          (h line (List.mem_cons_self line rest) (by simp [hhash]))
        simp [load_prompts, loadAll_spec, hhash, hsp, hrest]
  · decide

/-- C2 witness: a store within the at-most-one-delimiter proviso parses the
same under both policies. -/
theorem load_prompts_parsing_witness :
    load_prompts ["text;hi there".toList, "# skip;me;fine".toList, "nope".toList]
      = loadAll_spec ["text;hi there".toList, "# skip;me;fine".toList, "nope".toList] :=
  load_prompts_parsing.1 _ (by decide)

/-- C3: a provider reply missing a field the prompt kind's schema requires
makes the branch fail (the `unwrap` panic) before any render, upload or post
action is produced. -/
theorem missing_required_field_fails (k : PromptType) (censor : String → String)
    (resp : List (String × String)) (interp : List Char) (image_id : String)
    (f : String) (hf : f ∈ required_fields k) (hmiss : jget resp f = none) :
    run_branch k censor resp interp image_id = none := by
  cases k with
  | Text =>
    simp only [required_fields, get_functions, List.map_cons, List.map_nil,
      List.flatten_cons, List.flatten_nil, List.append_nil, List.mem_singleton] at hf
    subst hf
    simp [run_branch, text_branch, hmiss]
  | Image =>
    simp only [required_fields, get_functions, List.map_cons, List.map_nil,
      List.flatten_cons, List.flatten_nil, List.append_nil, List.mem_cons,
      List.mem_singleton, List.not_mem_nil, or_false] at hf
    rcases hf with hf | hf
    · subst hf
      simp [run_branch, image_branch, hmiss]
    · subst hf
      cases htop : jget resp "top_text" with
      | none => simp [run_branch, image_branch, htop]
      | some top => simp [run_branch, image_branch, htop, hmiss]

/-- C3 witness: an Image reply lacking `bottom_text` produces no effect at
all. -/
theorem missing_required_field_fails_witness :
    run_branch PromptType.Image id [("top_text", "HELLO")] "a \"b\" c".toList "77" = none :=
  missing_required_field_fails PromptType.Image id [("top_text", "HELLO")]
    "a \"b\" c".toList "77" "bottom_text" (by decide) (by decide)

/-! ## Quote-extraction lemmas -/

/-- Rust `match_indices` skips a block without the character. -/
theorem indicesFrom_append_not_mem (c : Char) :
    ∀ (a : List Char) (n : Nat) (rest : List Char), c ∉ a →
      indicesFrom c n (a ++ rest) = indicesFrom c (n + a.length) rest := by
  intro a
  induction a with
  | nil => intro n rest _; simp
  | cons x a ih =>
    intro n rest h
    have hx : x ≠ c := fun hEq => h (by simp [hEq])
    have hrec := ih (n + 1) rest (fun hmem => h (List.mem_cons_of_mem x hmem))
    simp only [List.cons_append, indicesFrom, if_neg hx, List.length_cons]
    rw [show n + (a.length + 1) = n + 1 + a.length by omega]
    exact hrec

/-- Rust `match_indices` finds as many indices as there are occurrences. -/
theorem indicesFrom_length (c : Char) :
    ∀ (l : List Char) (n : Nat), (indicesFrom c n l).length = l.count c := by
  intro l
  induction l with
  | nil => intro n; simp [indicesFrom]
  | cons x rest ih =>
    intro n
    by_cases hx : x = c
    · simp [indicesFrom, hx, ih, List.count_cons]
    · simp [indicesFrom, hx, ih, List.count_cons]

/-- C4: with at least two quotes the extraction returns exactly the text
strictly between the first and the second one; with fewer than two,
`matches[0]`/`matches[1]` index out of bounds (the panic, modelled `none`)
instead of a structured error. -/
theorem get_image_from_prompt_quotes :
    (∀ a b c : List Char, '"' ∉ a → '"' ∉ b →
      get_image_from_prompt (a ++ '"' :: b ++ '"' :: c) = some b) ∧
    (∀ p : List Char, p.count '"' < 2 → get_image_from_prompt p = none) := by
  constructor
  · intro a b c ha hb
    have hidx : indicesFrom '"' 0 (a ++ '"' :: b ++ '"' :: c)
        = a.length :: (a.length + 1 + b.length) ::
          indicesFrom '"' (a.length + 1 + b.length + 1) c := by
      rw [show a ++ '"' :: b ++ '"' :: c = a ++ ('"' :: (b ++ '"' :: c)) by simp]
      rw [indicesFrom_append_not_mem '"' a 0 _ ha]
      simp only [Nat.zero_add]
      rw [show indicesFrom '"' a.length ('"' :: (b ++ '"' :: c))
            = a.length :: indicesFrom '"' (a.length + 1) (b ++ '"' :: c) by
          simp [indicesFrom]]
      rw [indicesFrom_append_not_mem '"' b _ _ hb]
      rw [show indicesFrom '"' (a.length + 1 + b.length) ('"' :: c)
            = (a.length + 1 + b.length) :: indicesFrom '"' (a.length + 1 + b.length + 1) c by
          simp [indicesFrom]]
    unfold get_image_from_prompt
    rw [hidx]
    dsimp only
    rw [show a.length + 1 + b.length - (a.length + 1) = b.length by omega]
    rw [show a ++ '"' :: b ++ '"' :: c = (a ++ ['"']) ++ (b ++ ('"' :: c)) by simp]
    rw [show a.length + 1 = (a ++ ['"']).length by simp]
    rw [List.drop_left, List.take_left]
  · intro p hcount
    unfold get_image_from_prompt
    have hlen := indicesFrom_length '"' p 0
    cases hidx : indicesFrom '"' 0 p with
    | nil => rfl
    | cons i tail =>
      cases tail with
      | nil => rfl
      | cons j rest =>
        rw [hidx] at hlen
        simp at hlen
        omega

/-- C4 witness: both the in-bounds extraction and the fewer-than-two-quotes
break, on concrete prompts. -/
theorem get_image_from_prompt_quotes_witness :
    get_image_from_prompt ("use ".toList ++ '"' :: "grumpy".toList ++ '"' :: " please".toList)
      = some "grumpy".toList ∧
    get_image_from_prompt "no quotes here".toList = none :=
  ⟨get_image_from_prompt_quotes.1 "use ".toList "grumpy".toList " please".toList
      (by decide) (by decide),
   get_image_from_prompt_quotes.2 "no quotes here".toList (by decide)⟩

/-- C5: a catalog with zero entries after comment-filtering makes
`choose_random_item` fail (the `unwrap` of `choose`'s `None`), and a
non-empty one always yields one of its entries. -/
theorem choose_random_item_empty (lines : List (List Char)) (k : Nat) :
    (load_fill_in_file lines = [] → choose_random_item lines k = none) ∧
    (load_fill_in_file lines ≠ [] →
      ∃ v ∈ load_fill_in_file lines, choose_random_item lines k = some v) := by
  constructor
  · intro h
    simp [choose_random_item, chooseIdx, h]
  · intro h
    have hpos : 0 < (load_fill_in_file lines).length := List.length_pos.mpr h
    have hlt : k % (load_fill_in_file lines).length < (load_fill_in_file lines).length :=
      Nat.mod_lt _ hpos
    refine ⟨(load_fill_in_file lines).get ⟨_, hlt⟩, List.get_mem _ _ _, ?_⟩
    simp [choose_random_item, chooseIdx, List.get?_eq_get hlt]

/-- C5 witness: an all-comment catalog fails; a catalog with one real entry
serves it. -/
theorem choose_random_item_empty_witness :
    choose_random_item [['#', 'a']] 0 = none ∧
    ∃ v ∈ load_fill_in_file [['#', 'a'], ['c', 'a', 't']],
      choose_random_item [['#', 'a'], ['c', 'a', 't']] 5 = some v :=
  ⟨(choose_random_item_empty [['#', 'a']] 0).1 (by decide),
   (choose_random_item_empty [['#', 'a'], ['c', 'a', 't']] 5).2 (by decide)⟩

/-- C6: the prompt kind alone fixes the schema handed to the provider —
`set_text` requiring exactly `text` for Text, `set_meme` requiring exactly
`top_text` and `bottom_text` for Image — and the branch taken: Text posts
the censored text directly, Image renders, uploads, then posts the media. -/
theorem kind_determines_schema_and_branch :
    get_functions PromptType.Text
      = [⟨"set_text", [("text", "string")], ["text"]⟩] ∧
    get_functions PromptType.Image
      = [⟨"set_meme", [("top_text", "string"), ("bottom_text", "string")],
          ["top_text", "bottom_text"]⟩] ∧
    get_function_call PromptType.Text = "set_text" ∧
    get_function_call PromptType.Image = "set_meme" ∧
    (∀ (censor : String → String) (resp : List (String × String))
        (interp : List Char) (image_id : String) (acts : List Action),
      run_branch PromptType.Text censor resp interp image_id = some acts →
        ∃ t, jget resp "text" = some t ∧
          acts = [Action.post (send_mastodon_msg_params (censor t) none)]) ∧
    (∀ (censor : String → String) (resp : List (String × String))
        (interp : List Char) (image_id : String) (acts : List Action),
      run_branch PromptType.Image censor resp interp image_id = some acts →
        ∃ top bottom img, jget resp "top_text" = some top ∧
          jget resp "bottom_text" = some bottom ∧
          get_image_from_prompt interp = some img ∧
          acts = [Action.render img (censor top) (censor bottom),
                  Action.uploadMedia "output/output.jpg",
                  Action.post (send_mastodon_msg_params "" (some image_id))]) := by
  refine ⟨rfl, rfl, rfl, rfl, ?_, ?_⟩
  · intro censor resp interp image_id acts h
    unfold run_branch text_branch at h
    cases htext : jget resp "text" with
    | none => rw [htext] at h; exact absurd h (by simp)
    | some t =>
      rw [htext] at h
      refine ⟨t, rfl, ?_⟩
      simpa using h.symm
  · intro censor resp interp image_id acts h
    unfold run_branch image_branch at h
    cases htop : jget resp "top_text" with
    | none => rw [htop] at h; exact absurd h (by simp)
    | some top =>
      rw [htop] at h
      cases hbot : jget resp "bottom_text" with
      | none => rw [hbot] at h; exact absurd h (by simp)
      | some bottom =>
        rw [hbot] at h
        cases himg : get_image_from_prompt interp with
        | none => rw [himg] at h; exact absurd h (by simp)
        | some img =>
          rw [himg] at h
          refine ⟨top, bottom, img, rfl, rfl, rfl, ?_⟩
          simpa using h.symm

/-- C6 witness: the Text routing applied to a concrete reply. -/
theorem kind_determines_schema_and_branch_witness :
    ∃ t, jget [("text", "hi")] "text" = some t ∧
      ([Action.post (send_mastodon_msg_params (id "hi") none)] : List Action)
        = [Action.post (send_mastodon_msg_params (id t) none)] :=
  kind_determines_schema_and_branch.2.2.2.2.1 id [("text", "hi")] [] ""
    [Action.post (send_mastodon_msg_params (id "hi") none)] (by decide)

/-- C7: in every black (main) `draw_text` call of the renderer, the caption
whose measured width is below the image width is centred at
`(image_width - text_width) / 2`, and a caption at least as wide as the
image is drawn at `x = 0`; both captions get such a call. -/
theorem caption_offsets (widthOf : String → Nat) (w h : Nat) (top bottom : String) :
    (∀ call ∈ generate_image_calls widthOf w h top bottom, call.white = false →
      (widthOf call.text < w → call.x = (w - widthOf call.text) / 2) ∧
      (¬ widthOf call.text < w → call.x = 0)) ∧
    (∃ call ∈ generate_image_calls widthOf w h top bottom,
      call.white = false ∧ call.text = top) ∧
    (∃ call ∈ generate_image_calls widthOf w h top bottom,
      call.white = false ∧ call.text = bottom) := by
  have ho : outline_offsets = [4, 3, 2, 1, 0] := rfl
  refine ⟨?_, ?_, ?_⟩
  · intro call hcall hwhite
    simp only [generate_image_calls, ho, List.map_cons, List.map_nil,
      List.flatten_cons, List.flatten_nil, List.append_nil, List.cons_append,
      List.nil_append, List.mem_cons, List.not_mem_nil, or_false] at hcall
    rcases hcall with rfl | rfl | rfl | rfl | rfl | rfl | rfl | rfl | rfl | rfl
    · exact absurd hwhite (by simp)
    · exact absurd hwhite (by simp)
    · exact absurd hwhite (by simp)
    · exact absurd hwhite (by simp)
    · exact absurd hwhite (by simp)
    · exact absurd hwhite (by simp)
    · exact absurd hwhite (by simp)
    · exact absurd hwhite (by simp)
    · constructor <;> intro hlt <;> simp [hlt]
    · constructor <;> intro hlt <;> simp [hlt]
  · refine ⟨⟨top, (if widthOf top < w then (w - widthOf top) / 2 else 0) + 0,
      55 + 0, decide (0 ≠ 0)⟩, ?_, by simp, rfl⟩
    simp [generate_image_calls, ho]
  · refine ⟨⟨bottom, (if widthOf bottom < w then (w - widthOf bottom) / 2 else 0) + 0,
      h - 20 + 0, decide (0 ≠ 0)⟩, ?_, by simp, rfl⟩
    simp [generate_image_calls, ho]

/-- A concrete width metric for the C7 witness: ten pixels per character. -/
def widthTen (s : String) : Nat :=
  s.length * 10

/-- C7 witness: a narrow caption is centred, a wide one is left-aligned, on
a 200-pixel-wide image. -/
theorem caption_offsets_witness :
    (⟨"HI", 90, 55, false⟩ : DrawCall).x = (200 - widthTen "HI") / 2 ∧
    (⟨"A VERY LONG CAPTION INDEED", 0, 60, false⟩ : DrawCall).x = 0 :=
  ⟨((caption_offsets widthTen 200 80 "HI" "A VERY LONG CAPTION INDEED").1
      ⟨"HI", 90, 55, false⟩ (by decide) rfl).1 (by decide),
   ((caption_offsets widthTen 200 80 "HI" "A VERY LONG CAPTION INDEED").1
      ⟨"A VERY LONG CAPTION INDEED", 0, 60, false⟩ (by decide) rfl).2 (by decide)⟩

/-- C8: the model pick is a weighted coin flip on one uniform draw between
the two fixed identifiers; the fast tier is chosen exactly below the
threshold, whose value 0.95 lies in the 90–95% band. -/
theorem model_tier_selection :
    (∀ u : ℚ, select_model u = "gpt-3.5-turbo" ∨ select_model u = "gpt-4") ∧
    (∀ u : ℚ, select_model u = "gpt-3.5-turbo" ↔ u < model_threshold) ∧
    9 / 10 ≤ model_threshold ∧ model_threshold ≤ 95 / 100 := by
  refine ⟨?_, ?_, by norm_num [model_threshold], by norm_num [model_threshold]⟩
  · intro u
    by_cases hu : u < model_threshold
    · exact Or.inl (by simp [select_model, gen_bool, hu])
    · exact Or.inr (by simp [select_model, gen_bool, hu])
  · intro u
    by_cases hu : u < model_threshold
    · simp [select_model, gen_bool, hu]
    · have hsel : select_model u = "gpt-4" := by simp [select_model, gen_bool, hu]
      rw [hsel]
      constructor
      · intro hEq
        exact absurd hEq (by decide)
      · intro hlt
        exact absurd hlt hu

/-- C8 witness: the draw 1/2 falls below the threshold and selects the fast
tier. -/
theorem model_tier_selection_witness :
    select_model (1 / 2) = "gpt-3.5-turbo" :=
  (model_tier_selection.2.1 (1 / 2)).mpr (by norm_num [model_threshold])

/-- C10: in every successful Image-branch run, any status post the branch
performs carries the empty text — the captions live only in the rendered
image — and it comes after the media upload. -/
theorem image_branch_posts_empty_status (censor : String → String)
    (resp : List (String × String)) (interp : List Char) (image_id : String)
    (acts : List Action)
    (h : run_branch PromptType.Image censor resp interp image_id = some acts) :
    (∀ params, Action.post params ∈ acts → jget params "status" = some "") ∧
    (∃ i j, i < j ∧ acts.get? i = some (Action.uploadMedia "output/output.jpg") ∧
      ∃ params, acts.get? j = some (Action.post params) ∧
        jget params "status" = some "") := by
  unfold run_branch image_branch at h
  cases htop : jget resp "top_text" with
  | none => rw [htop] at h; exact absurd h (by simp)
  | some top =>
    rw [htop] at h
    cases hbot : jget resp "bottom_text" with
    | none => rw [hbot] at h; exact absurd h (by simp)
    | some bottom =>
      rw [hbot] at h
      cases himg : get_image_from_prompt interp with
      | none => rw [himg] at h; exact absurd h (by simp)
      | some img =>
        rw [himg] at h
        have hacts : acts = [Action.render img (censor top) (censor bottom),
            Action.uploadMedia "output/output.jpg",
            Action.post (send_mastodon_msg_params "" (some image_id))] := by
          simpa using h.symm
        subst hacts
        constructor
        · intro params hp
          simp only [List.mem_cons, List.not_mem_nil, or_false] at hp
          rcases hp with hp | hp | hp
          · exact absurd hp (by simp)
          · exact absurd hp (by simp)
          · have hparams : params = send_mastodon_msg_params "" (some image_id) := by
              simpa using hp
            subst hparams
            rfl
        · exact ⟨1, 2, by omega, rfl, send_mastodon_msg_params "" (some image_id), rfl, rfl⟩

/-- C10 witness: a concrete successful Image run posts the empty status
after the upload. -/
theorem image_branch_posts_empty_status_witness :
    (∀ params, Action.post params ∈
        [Action.render ['x'] (id "T") (id "B"),
         Action.uploadMedia "output/output.jpg",
         Action.post (send_mastodon_msg_params "" (some "9"))] →
      jget params "status" = some "") ∧
    (∃ i j, i < j ∧
      ([Action.render ['x'] (id "T") (id "B"),
        Action.uploadMedia "output/output.jpg",
        Action.post (send_mastodon_msg_params "" (some "9"))] : List Action).get? i
          = some (Action.uploadMedia "output/output.jpg") ∧
      ∃ params,
        ([Action.render ['x'] (id "T") (id "B"),
          Action.uploadMedia "output/output.jpg",
          Action.post (send_mastodon_msg_params "" (some "9"))] : List Action).get? j
            = some (Action.post params) ∧
        jget params "status" = some "") :=
  image_branch_posts_empty_status id [("top_text", "T"), ("bottom_text", "B")]
    ['"', 'x', '"'] "9" _ (by decide)

end UnfunnyBot
